import Mathlib

/-!
Shallow embedding of the entity-normalization and record-linkage core of the
ModelSEEDTemplates repository, together with proofs about it.

Strings are modelled as `List Char` (`Str`), restricted to the scalar values
Lean's `Char` supports; Python's ASCII case mapping and ASCII whitespace are
modelled explicitly.  Python dicts that are only ever extended are modelled as
association lists (`List (key × value)`) preserving insertion order.
Recursions that consume a variable number of characters per step are written
with an explicit fuel argument (initialized to the input length, which every
step strictly decreases), so that every definition reduces inside the kernel
and concrete instances can be settled by `decide`.
-/

/-- Strings as lists of characters. -/
abbrev Str := List Char

/-- Converts a Lean string literal to the `Str` representation. -/
def strL (s : String) : Str := s.data

/-- Whitespace characters stripped by Python's `str.strip()` / matched by `\s`
(ASCII fragment). -/
def isPySpace (c : Char) : Bool :=
  c == ' ' || c == '\t' || c == '\n' || c == '\r' || c == '\x0b' || c == '\x0c'

/-- Word characters of Python's regex `\w` (ASCII fragment): letters, digits
and the underscore. -/
def isWordChar (c : Char) : Bool :=
  c.isAlpha || c.isDigit || c == '_'

/-- Characters kept by `re.sub(r"[\W_]+", "", s)`: a character is removed when
it is non-word or an underscore, and kept otherwise. -/
def keepChar (c : Char) : Bool :=
  !(!(isWordChar c) || c == '_')

/-- Python's `str.strip()`: remove leading and trailing whitespace. -/
def pyStrip (s : Str) : Str :=
  ((s.dropWhile isPySpace).reverse.dropWhile isPySpace).reverse

/-- Embedding of `normalize_role` from
`templates/ontology/scripts/template_enhancer.py`:
`s = s.strip().lower()` followed by `s = re.sub(r"[\W_]+", "", s)`.
Python's Unicode-aware `str.lower()` is modelled by the ASCII case mapping
`Char.toLower`. -/
def normalize_role (s : Str) : Str :=
  (((pyStrip s).map Char.toLower).filter keepChar)

/-- Fueled worker for `ecStrip`: each step consumes at least one character, so
fuel equal to the input length is always sufficient and the `0` case is
unreachable. -/
def ecFuel : Nat → Str → Str
  | _, [] => []
  | 0, s => s
  | n + 1, c :: rest =>
    if c = '(' ∧ rest.take 2 = ['E', 'C'] then
      match (rest.drop 2).findIdx? (fun d => d == ')') with
      | some k => ecFuel n ((rest.drop 2).drop (k + 1))
      | none => c :: ecFuel n rest
    else c :: ecFuel n rest

/-- Embedding of `re.sub(r'\(EC[^)]*\)', '', s)`: delete every occurrence of a
literal `(EC`, followed by any run of non-`)` characters, followed by `)`.
A match beginning at `(EC` extends to the first following `)`; if no closing
parenthesis follows, no match begins at that position and scanning resumes one
character later. -/
def ecStrip (s : Str) : Str := ecFuel s.length s

/-- Embedding of `re.sub(r'\s+', ' ', s)`: replace every maximal run of
whitespace by a single space (the space is emitted at the last character of a
run, i.e. when the run ends or the next character is not whitespace). -/
def collapseWs : Str → Str
  | [] => []
  | [c] => [if isPySpace c then ' ' else c]
  | c :: d :: rest =>
    if isPySpace c then
      if isPySpace d then collapseWs (d :: rest)
      else ' ' :: collapseWs (d :: rest)
    else c :: collapseWs (d :: rest)

/-- Embedding of `CorrectedOntologyBuilder.normalize_role_name` from
`templates/ontology/scripts/build_working_ontology.py`.  The input is
`Option Str` because the Python function accepts `None` (`if not name`
also catches the empty string).  Steps: strip, remove `(EC ...)` groups,
strip again, collapse whitespace, lowercase, drop non-alphanumerics. -/
def normalize_role_name (name : Option Str) : Str :=
  match name with
  | none => []
  | some s =>
    if s = [] then []
    else
      (((collapseWs (pyStrip (ecStrip (pyStrip s)))).map Char.toLower).filter keepChar)

/-- The common tail of both normalizers: lowercase then keep-filter. -/
def lowerKeep (u : Str) : Str :=
  (u.map Char.toLower).filter keepChar

/-- Erase every whitespace character (a proof device: both normalizers are
insensitive to whitespace placement because `keepChar` rejects whitespace). -/
def wsErase (u : Str) : Str :=
  u.filter (fun c => !(isPySpace c))

/-- Fueled worker for `pyReplace`: each step consumes at least one character
(the pattern, when it matches, is nonempty), so fuel equal to the input length
is always sufficient. -/
def replaceFuel (pat repl : Str) : Nat → Str → Str
  | _, [] => []
  | 0, s => s
  | n + 1, c :: rest =>
    if pat ≠ [] ∧ pat.isPrefixOf (c :: rest) then
      repl ++ replaceFuel pat repl n ((c :: rest).drop pat.length)
    else c :: replaceFuel pat repl n rest

/-- Python's `s.replace(pat, repl)`: replace every (left-to-right,
non-overlapping) occurrence of `pat` in `s` by `repl`.  The sources only ever
call it with a nonempty pattern; an empty pattern leaves `s` unchanged here. -/
def pyReplace (pat repl s : Str) : Str := replaceFuel pat repl s.length s

/-- Python's `s.split(sep)[-1]` for a one-character separator: the characters
after the last occurrence of `sep` (the whole string when `sep` is absent). -/
def lastSegOn (sep : Char) (s : Str) : Str :=
  s.foldl (fun acc c => if c = sep then [] else acc ++ [c]) []

/-- Python's `s.split(';')`: split at every semicolon, keeping empty parts. -/
def splitSemi : Str → List Str
  | [] => [[]]
  | c :: rest =>
    if c = ';' then [] :: splitSemi rest
    else
      match splitSemi rest with
      | h :: t => (c :: h) :: t
      | [] => [[c]]

/-- Python's `s.rstrip(';')`: remove every trailing semicolon. -/
def rstripSemis (s : Str) : Str :=
  (s.reverse.dropWhile (fun c => c == ';')).reverse

/-- The list comprehension `[kid.strip() for kid in ids if kid.strip()]`
applied after `rstrip(';').split(';')`. -/
def splitTrimNonempty (v : Str) : List Str :=
  (splitSemi (rstripSemis v)).filterMap (fun kid =>
    let k := pyStrip kid
    if k = [] then none else some k)

/-- An xref record: the sources read only its `val` field. -/
structure Xref where
  val : Str
deriving DecidableEq

/-- The mapping built by `ModelSEEDExtractor._parse_xrefs`
(`templates/ontology/pyobo_builder/extractors/modelseed_extractor.py`).  The
Python dict has at most these four keys; a missing key coincides with an empty
list here, faithful because the code only ever appends nonempty batches. -/
structure XrefMap where
  chebi : List Str
  kegg : List Str
  metacyc : List Str
  seed_reaction : List Str
deriving DecidableEq

/-- One iteration of the `for xref in xrefs_list` loop of
`ModelSEEDExtractor._parse_xrefs`: CHEBI values are kept whole, kegg/metacyc
values are prefix-stripped, right-stripped of `;`, split on `;`, trimmed and
filtered of empties, seed.reaction values are only prefix-stripped; anything
else is dropped. -/
def parseXrefStep (acc : XrefMap) (x : Xref) : XrefMap :=
  let v := x.val
  if (strL ("CHEBI:")).isPrefixOf v then
    { acc with chebi := acc.chebi ++ [v] }
  else if (strL ("kegg.compound:")).isPrefixOf v then
    { acc with kegg := acc.kegg ++ splitTrimNonempty (pyReplace (strL ("kegg.compound:")) [] v) }
  else if (strL ("metacyc.compound:")).isPrefixOf v then
    { acc with metacyc := acc.metacyc ++ splitTrimNonempty (pyReplace (strL ("metacyc.compound:")) [] v) }
  else if (strL ("seed.reaction:")).isPrefixOf v then
    { acc with seed_reaction := acc.seed_reaction ++ [pyReplace (strL ("seed.reaction:")) [] v] }
  else acc

/-- Embedding of `ModelSEEDExtractor._parse_xrefs`: fold the per-xref step
over the raw values, starting from the empty mapping. -/
def parse_xrefs (xs : List Xref) : XrefMap :=
  xs.foldl parseXrefStep ⟨[], [], [], []⟩

/-- The three xref lists accumulated by `OntologyMapper.map_reaction`
(`templates/ontology/mapping_tools/add_ontology_mappings.py`, the
`for xref in xrefs` loop). -/
structure ReactionXrefs where
  ec_numbers : List Str
  kegg_ids : List Str
  metacyc_ids : List Str
deriving DecidableEq

/-- Embedding of the xref loop of `OntologyMapper.map_reaction`: each value is
prefix-stripped with `str.replace` and appended without any emptiness
filtering. -/
def reaction_xref_lists (xs : List Xref) : ReactionXrefs :=
  xs.foldl
    (fun acc x =>
      let v := x.val
      if (strL ("EC:")).isPrefixOf v then
        { acc with ec_numbers := acc.ec_numbers ++ [pyReplace (strL ("EC:")) [] v] }
      else if (strL ("KEGG.REACTION:")).isPrefixOf v then
        { acc with kegg_ids := acc.kegg_ids ++ [pyReplace (strL ("KEGG.REACTION:")) [] v] }
      else if (strL ("MetaCyc:")).isPrefixOf v then
        { acc with metacyc_ids := acc.metacyc_ids ++ [pyReplace (strL ("MetaCyc:")) [] v] }
      else acc)
    ⟨[], [], []⟩

/-- A node of seed.json's OBO graph: the enhancer reads `id` and `lbl`. -/
structure SeedNode where
  id : Str
  lbl : Str
deriving DecidableEq

/-- The record stored by `_build_normalization_lookup` for each SEED role. -/
structure RoleInfo where
  seed_id : Str
  seed_url : Str
  original_name : Str
  normalized : Str
deriving DecidableEq

/-- Embedding of `re.search(r'Role=(\d+)', s)` restricted to its first,
maximal capture: scan left to right for a literal `Role=` followed by at
least one digit. -/
def findRoleNum : Str → Option Str
  | [] => none
  | c :: rest =>
    if c = 'R' ∧ rest.take 4 = ['o', 'l', 'e', '='] ∧ (rest.drop 4).takeWhile Char.isDigit ≠ [] then
      some ((rest.drop 4).takeWhile Char.isDigit)
    else findRoleNum rest

/-- Python's substring test `pat in s`. -/
def containsSub (pat : Str) : Str → Bool
  | [] => pat.isEmpty
  | c :: rest => pat.isPrefixOf (c :: rest) || containsSub pat rest

/-- The per-node step of `_build_normalization_lookup`: a node yields a role
record when its id contains `Role=`, its label is nonempty, and a role number
can be extracted. -/
def parseSeedRole (node : SeedNode) : Option RoleInfo :=
  if containsSub (strL ("Role=")) node.id ∧ node.lbl ≠ [] then
    match findRoleNum node.id with
    | some num =>
      some { seed_id := strL ("seed.role:") ++ num
             seed_url := node.id
             original_name := node.lbl
             normalized := normalize_role node.lbl }
    | none => none
  else none

/-- `self.normalization_collisions[normalized].extend([existing, role_info])`
on a `defaultdict(list)`. -/
def addColl (colls : List (Str × List RoleInfo)) (key : Str)
    (existing info : RoleInfo) : List (Str × List RoleInfo) :=
  if colls.any (fun p => p.1 == key) then
    colls.map (fun p => if p.1 == key then (p.1, p.2 ++ [existing, info]) else p)
  else colls ++ [(key, [existing, info])]

/-- Embedding of `NormalizationEnhancedMapper._build_normalization_lookup`
(`templates/ontology/scripts/template_enhancer.py`): fold over the seed.json
role nodes, keeping the first record per normalized name in
`seed_role_by_normalized` and recording later duplicates in
`normalization_collisions`. -/
def build_normalization_lookup (nodes : List SeedNode) :
    List (Str × RoleInfo) × List (Str × List RoleInfo) :=
  nodes.foldl
    (fun acc node =>
      match parseSeedRole node with
      | none => acc
      | some info =>
        match acc.1.lookup info.normalized with
        | some existing => (acc.1, addColl acc.2 info.normalized existing info)
        | none => (acc.1 ++ [(info.normalized, info)], acc.2))
    ([], [])

/-- A template role record as mutated by `map_role`; absent dict keys are
`none`. -/
structure ERole where
  id : Str
  name : Str
  source : Str
  hasNormalizedForm : Option Str
  seed_id : Option Str
  seed_url : Option Str
  mapping_method : Option Str
deriving DecidableEq

/-- A collision report entry appended to `self.potential_collisions`. -/
structure CollisionInfo where
  template_role : Str
  normalized : Str
  colliding_seed_roles : List Str
deriving DecidableEq

/-- A normalization-success entry appended to `self.normalization_matches`. -/
structure MatchInfo where
  template_role_id : Str
  template_role_name : Str
  seed_id : Str
  seed_role_name : Str
  normalized_form : Str
deriving DecidableEq

/-- An entry of `self.unmapped_roles`. -/
structure UnmappedRole where
  id : Str
  name : Str
  normalized : Str
  source : Str
deriving DecidableEq

/-- The `self.stats['roles']` counters touched by `map_role`. -/
structure RoleStats where
  total : Nat
  modelseed : Nat
  kegg : Nat
  plantseed : Nat
  seed : Nat
  other : Nat
  in_complexes : Nat
  normalized : Nat
  rast_mapped : Nat
  normalization_mapped : Nat
  final_mapped : Nat
deriving DecidableEq

/-- The state of a `NormalizationEnhancedMapper` as read and written by
`map_role`.  `rast_map` is the external collaborator
`RASTSeedMapper.map_annotation` (always present: the constructor sets it, so
`if self.rast_mapper:` is always true). -/
structure Mapper where
  rast_map : Str → Option Str
  seed_role_by_normalized : List (Str × RoleInfo)
  normalization_collisions : List (Str × List RoleInfo)
  roles_in_complexes : List Str
  potential_collisions : List CollisionInfo
  normalization_matches : List MatchInfo
  unmapped_roles : List UnmappedRole
  role_to_seed : List (Str × Str)
  stats : RoleStats

/-- `seed_url` built in the RAST branch of `map_role`:
`seed_id.split(':')[-1]` appended to the RoleEditor URL. -/
def rastSeedUrl (sid : Str) : Str :=
  strL ("https://pubseed.theseed.org/RoleEditor.cgi?page=ShowRole&Role=") ++ lastSegOn ':' sid

/-- The `if seed_id:` tail of `map_role` in the mapped case: set the role's
`seed_id`, `seed_url` and `mapping_method`, bump `final_mapped`, and record
`role_to_seed[role_id]` when the id is nonempty. -/
def finishMapped (m : Mapper) (role : ERole) (sid : Str)
    (url method : Option Str) : Mapper × ERole :=
  let role := { role with seed_id := some sid, seed_url := url, mapping_method := method }
  ({ m with stats := { m.stats with final_mapped := m.stats.final_mapped + 1 },
            role_to_seed :=
              if role.id ≠ [] then m.role_to_seed ++ [(role.id, sid)] else m.role_to_seed },
   role)

/-- The `else` tail of `map_role`: append the role to `unmapped_roles`. -/
def finishUnmapped (m : Mapper) (role : ERole) (normalized : Str) :
    Mapper × ERole :=
  ({ m with unmapped_roles := m.unmapped_roles ++
      [{ id := role.id, name := role.name, normalized := normalized, source := role.source }] },
   role)

/-- Embedding of `NormalizationEnhancedMapper.map_role`
(`templates/ontology/scripts/template_enhancer.py`): count the role by
source; skip roles not referenced by any complex; skip roles with an empty
name; otherwise record the normalized form on the role and run the priority
chain - the external RAST mapper first, then the normalized-form index with
the conservative collision skip. -/
def map_role (m : Mapper) (role : ERole) : Mapper × ERole :=
  let st0 := { m.stats with total := m.stats.total + 1 }
  let st1 :=
    if role.source = strL ("ModelSEED") then { st0 with modelseed := st0.modelseed + 1 }
    else if role.source = strL ("KEGG") then { st0 with kegg := st0.kegg + 1 }
    else if role.source = strL ("PlantSEED") then { st0 with plantseed := st0.plantseed + 1 }
    else if role.source = strL ("SEED") then { st0 with seed := st0.seed + 1 }
    else { st0 with other := st0.other + 1 }
  let m1 := { m with stats := st1 }
  if ¬ (m1.roles_in_complexes.contains role.id) then (m1, role)
  else
    let m2 := { m1 with stats := { m1.stats with in_complexes := m1.stats.in_complexes + 1 } }
    if role.name = [] then (m2, role)
    else
      let normalized := normalize_role role.name
      let role1 := { role with hasNormalizedForm := some normalized }
      let m3 := { m2 with stats := { m2.stats with normalized := m2.stats.normalized + 1 } }
      match m3.rast_map role.name with
      | some sid =>
        let m4 := { m3 with stats := { m3.stats with rast_mapped := m3.stats.rast_mapped + 1 } }
        finishMapped m4 role1 sid (some (rastSeedUrl sid)) (some (strL ("exact_rast")))
      | none =>
        match m3.seed_role_by_normalized.lookup normalized with
        | none => finishUnmapped m3 role1 normalized
        | some info =>
          match m3.normalization_collisions.lookup normalized with
          | some colliders =>
            let m4 := { m3 with potential_collisions :=
              m3.potential_collisions ++
                [{ template_role := role.name, normalized := normalized,
                   colliding_seed_roles := colliders.map (fun r => r.original_name) }] }
            finishUnmapped m4 role1 normalized
          | none =>
            let m4 := { m3 with
              stats := { m3.stats with normalization_mapped := m3.stats.normalization_mapped + 1 },
              normalization_matches := m3.normalization_matches ++
                [{ template_role_id := role.id, template_role_name := role.name,
                   seed_id := info.seed_id, seed_role_name := info.original_name,
                   normalized_form := normalized }] }
            finishMapped m4 role1 info.seed_id (some info.seed_url) (some (strL ("normalization")))

/-- A relationship dict with `subject`, `predicate` and `object` keys
(named `RelEdge` because Mathlib already declares `Rel`). -/
structure RelEdge where
  subject : Str
  predicate : Str
  object : Str
deriving DecidableEq

/-- A template role as read by `process_template_relationships`: only the
`id` and optional `seed_id` fields are consulted. -/
structure BRole where
  id : Str
  seed_id : Option Str
deriving DecidableEq

/-- A `complexroles` entry; `triggering` is read with `.get('triggering', 0)`
so an absent key is `none`. -/
structure BComplexRole where
  templaterole_ref : Str
  triggering : Option Nat
deriving DecidableEq

/-- A template complex. -/
structure BComplex where
  id : Str
  complexroles : List BComplexRole
deriving DecidableEq

/-- A template reaction; `rtype` models the optional `type` dict key. -/
structure BReaction where
  id : Str
  rtype : Option Str
  templatecomplex_refs : List Str
deriving DecidableEq

/-- The parts of the enhanced template that
`process_template_relationships` reads. -/
structure BTemplate where
  roles : List BRole
  complexes : List BComplex
  reactions : List BReaction
deriving DecidableEq

/-- `rxn['id'].replace('_c', '').replace('_e', '').replace('_p', '')`. -/
def rxnBaseId (rid : Str) : Str :=
  pyReplace (strL ("_p")) [] (pyReplace (strL ("_e")) [] (pyReplace (strL ("_c")) [] rid))

/-- Reaction URI built by the builder. -/
def reactionUri (base : Str) : Str :=
  strL ("https://modelseed.org/biochem/reactions/") ++ base

/-- Complex URI built by the builder. -/
def complexUri (cid : Str) : Str :=
  strL ("https://modelseed.org/biochem/complexes/") ++ cid

/-- SEED RoleEditor URI for a resolved role. -/
def seedRoleUri (num : Str) : Str :=
  strL ("https://pubseed.theseed.org/RoleEditor.cgi?page=ShowRole&Role=") ++ num

/-- Placeholder template-role URI used for unmapped roles. -/
def templateRoleUri (rid : Str) : Str :=
  strL ("https://modelseed.org/template/roles/") ++ rid

/-- The `has_complex` predicate URI. -/
def predHasComplex : Str := strL ("https://modelseed.org/ontology/has_complex")

/-- The `has_role` predicate URI. -/
def predHasRole : Str := strL ("https://modelseed.org/ontology/has_role")

/-- The `enables_reaction` predicate URI. -/
def predEnables : Str := strL ("https://modelseed.org/ontology/enables_reaction")

/-- The role URI chosen by the builder: the SEED RoleEditor URI when the role
has a truthy `seed_id` (with the `seed.role:` prefix removed), and the
template placeholder URI otherwise. -/
def roleUriOf (role : BRole) : Str :=
  match role.seed_id with
  | some s =>
    if s ≠ [] then seedRoleUri (pyReplace (strL ("seed.role:")) [] s)
    else templateRoleUri role.id
  | none => templateRoleUri role.id

/-- `next((c for c in self.template['complexes'] if c['id'] == cpx_id), None)`. -/
def findComplex (tpl : BTemplate) (cid : Str) : Option BComplex :=
  tpl.complexes.find? (fun c => c.id == cid)

/-- `next((r for r in self.template['roles'] if r['id'] == role_id), None)`. -/
def findRole (tpl : BTemplate) (rid : Str) : Option BRole :=
  tpl.roles.find? (fun r => r.id == rid)

/-- The `has_complex` list accumulated by
`CorrectedOntologyBuilder.process_template_relationships`
(`templates/ontology/scripts/build_working_ontology.py`).  The loop nest only
ever appends to `self.has_complex_rels`, so its final contents and order are
this comprehension over the same iteration. -/
def hasComplexRels (tpl : BTemplate) : List RelEdge :=
  tpl.reactions.flatMap (fun rxn =>
    rxn.templatecomplex_refs.filterMap (fun cref =>
      match findComplex tpl (lastSegOn '/' cref) with
      | none => none
      | some _ =>
        some { subject := reactionUri (rxnBaseId rxn.id), predicate := predHasComplex,
               object := complexUri (lastSegOn '/' cref) }))

/-- The `has_role` list accumulated by `process_template_relationships`:
one edge per found member role of each found complex of each reaction,
regardless of whether the role resolved (unresolved roles get the
template-role placeholder URI via `roleUriOf`). -/
def hasRoleRels (tpl : BTemplate) : List RelEdge :=
  tpl.reactions.flatMap (fun rxn =>
    rxn.templatecomplex_refs.flatMap (fun cref =>
      match findComplex tpl (lastSegOn '/' cref) with
      | none => []
      | some cpx =>
        cpx.complexroles.filterMap (fun cr =>
          if cr.templaterole_ref = [] then none
          else
            match findRole tpl (lastSegOn '/' cr.templaterole_ref) with
            | none => none
            | some role =>
              some { subject := complexUri (lastSegOn '/' cref), predicate := predHasRole,
                     object := roleUriOf role })))

/-- The `enables_reaction` list accumulated by
`process_template_relationships`: as `hasRoleRels`, but an edge is emitted
only when the complex-role has `triggering == 1`. -/
def enablesRels (tpl : BTemplate) : List RelEdge :=
  tpl.reactions.flatMap (fun rxn =>
    rxn.templatecomplex_refs.flatMap (fun cref =>
      match findComplex tpl (lastSegOn '/' cref) with
      | none => []
      | some cpx =>
        cpx.complexroles.filterMap (fun cr =>
          if cr.templaterole_ref = [] then none
          else
            match findRole tpl (lastSegOn '/' cr.templaterole_ref) with
            | none => none
            | some role =>
              if (cr.triggering.getD 0) == 1 then
                some { subject := roleUriOf role, predicate := predEnables,
                       object := reactionUri (rxnBaseId rxn.id) }
              else none)))

/-- The `reaction_type` list accumulated by
`process_template_relationships` (CURIE subjects, string-literal objects). -/
def reactionTypeRels (tpl : BTemplate) : List RelEdge :=
  tpl.reactions.filterMap (fun rxn =>
    match rxn.rtype with
    | some t =>
      if t = strL ("spontaneous") then
        some { subject := strL ("seed.reaction:") ++ rxnBaseId rxn.id,
               predicate := strL ("https://modelseed.org/ontology/reaction_type"),
               object := strL ("spontaneous") }
      else if t = strL ("universal") then
        some { subject := strL ("seed.reaction:") ++ rxnBaseId rxn.id,
               predicate := strL ("https://modelseed.org/ontology/reaction_type"),
               object := strL ("universal") }
      else none
    | none => none)

/-- The fuel argument of `ecFuel` is irrelevant once it covers the input
length. -/
theorem ecFuel_irrel : ∀ (n : Nat) (s : Str), s.length ≤ n → ecFuel n s = ecFuel s.length s := by
  intro n
  induction n using Nat.strong_induction_on with
  | _ n ih =>
    intro s hs
    cases s with
    | nil => cases n <;> rfl
    | cons c rest =>
      cases n with
      | zero => simp at hs
      | succ k =>
        have hr : rest.length ≤ k := by
          simp only [List.length_cons] at hs
          omega
        show ecFuel (k + 1) (c :: rest) = ecFuel (rest.length + 1) (c :: rest)
        simp only [ecFuel]
        by_cases hcond : c = '(' ∧ rest.take 2 = ['E', 'C']
        · rw [if_pos hcond, if_pos hcond]
          cases hidx : (rest.drop 2).findIdx? (fun d => d == ')') with
          | some j =>
            simp only [hidx]
            have hlen : ((rest.drop 2).drop (j + 1)).length ≤ rest.length := by
              simp only [List.length_drop]
              omega
            rw [ih k (Nat.lt_succ_self k) _ (Nat.le_trans hlen hr),
              ih rest.length (Nat.lt_succ_of_le hr) _ hlen]
          | none =>
            simp only [hidx]
            rw [ih k (Nat.lt_succ_self k) rest hr]
        · rw [if_neg hcond, if_neg hcond, ih k (Nat.lt_succ_self k) rest hr]

/-- The one-step unfolding of `ecStrip`. -/
theorem ecStrip_cons (c : Char) (rest : Str) :
    ecStrip (c :: rest) =
      if c = '(' ∧ rest.take 2 = ['E', 'C'] then
        match (rest.drop 2).findIdx? (fun d => d == ')') with
        | some k => ecStrip ((rest.drop 2).drop (k + 1))
        | none => c :: ecStrip rest
      else c :: ecStrip rest := by
  show ecFuel (rest.length + 1) (c :: rest) = _
  simp only [ecFuel]
  by_cases hcond : c = '(' ∧ rest.take 2 = ['E', 'C']
  · rw [if_pos hcond, if_pos hcond]
    cases hidx : (rest.drop 2).findIdx? (fun d => d == ')') with
    | some j =>
      simp only [hidx]
      exact ecFuel_irrel rest.length _ (by simp only [List.length_drop]; omega)
    | none =>
      simp only [hidx]
      rfl
  · rw [if_neg hcond, if_neg hcond]
    rfl

/-- A `Nat` below the surrogate range is a valid scalar value, and `Char.ofNat`
is faithful on it. -/
theorem toNat_ofNat_small {n : Nat} (h : n < 55296) : (Char.ofNat n).toNat = n := by
  rw [Char.ofNat, dif_pos (Or.inl h)]
  rfl

/-- ASCII lowercasing is idempotent. -/
theorem toLower_toLower (c : Char) : c.toLower.toLower = c.toLower := by
  unfold Char.toLower
  by_cases h : c.toNat ≥ 65 ∧ c.toNat ≤ 90
  · rw [if_pos h]
    have hv : (Char.ofNat (c.toNat + 32)).toNat = c.toNat + 32 :=
      toNat_ofNat_small (by omega)
    rw [if_neg (by omega)]
  · rw [if_neg h, if_neg h]

/-- A kept character is not whitespace. -/
theorem keep_not_space {c : Char} (h : keepChar c = true) : isPySpace c = false := by
  cases hsp : isPySpace c with
  | false => rfl
  | true =>
    simp only [isPySpace, Bool.or_eq_true, beq_iff_eq] at hsp
    rcases hsp with ((((rfl | rfl) | rfl) | rfl) | rfl) | rfl <;> exact absurd h (by decide)

/-- A kept character is not an opening parenthesis. -/
theorem keep_ne_lparen {c : Char} (h : keepChar c = true) : c ≠ '(' := by
  rintro rfl
  exact absurd h (by decide)

/-- If a character survives lowercasing plus the keep-filter, it was not
whitespace. -/
theorem keep_toLower_not_space {c : Char} (h : keepChar c.toLower = true) :
    isPySpace c = false := by
  cases hsp : isPySpace c with
  | false => rfl
  | true =>
    simp only [isPySpace, Bool.or_eq_true, beq_iff_eq] at hsp
    rcases hsp with ((((rfl | rfl) | rfl) | rfl) | rfl) | rfl <;> exact absurd h (by decide)

theorem normalize_role_eq (s : Str) : normalize_role s = lowerKeep (pyStrip s) := rfl

/-- Every character of a `lowerKeep` output is kept and lowercase-fixed. -/
theorem mem_lowerKeep {u : Str} {d : Char} (hd : d ∈ lowerKeep u) :
    keepChar d = true ∧ d.toLower = d := by
  unfold lowerKeep at hd
  have hk := List.of_mem_filter hd
  have hm := List.mem_of_mem_filter hd
  rcases List.mem_map.mp hm with ⟨c, _, rfl⟩
  exact ⟨hk, toLower_toLower c⟩

/-- `dropWhile` is the identity when no element satisfies the predicate. -/
theorem dropWhile_eq_self_all {p : Char → Bool} {l : Str}
    (h : ∀ c ∈ l, p c = false) : l.dropWhile p = l := by
  cases l with
  | nil => rfl
  | cons a t => simp [List.dropWhile, h a (by simp)]

/-- `pyStrip` is the identity on whitespace-free lists. -/
theorem pyStrip_eq_self {l : Str} (h : ∀ c ∈ l, isPySpace c = false) :
    pyStrip l = l := by
  unfold pyStrip
  rw [dropWhile_eq_self_all h,
    dropWhile_eq_self_all (fun c hc => h c (List.mem_reverse.mp hc)),
    List.reverse_reverse]

/-- `ecStrip` is the identity on lists without an opening parenthesis. -/
theorem ecStrip_eq_self {l : Str} (h : ∀ c ∈ l, c ≠ '(') : ecStrip l = l := by
  induction l with
  | nil => rfl
  | cons a t ih =>
    rw [ecStrip_cons, if_neg]
    · rw [ih (fun c hc => h c (List.mem_cons_of_mem a hc))]
    · rintro ⟨rfl, -⟩
      exact h '(' (List.mem_cons_self _ _) rfl

/-- `collapseWs` is the identity on whitespace-free lists. -/
theorem collapseWs_eq_self {l : Str} (h : ∀ c ∈ l, isPySpace c = false) :
    collapseWs l = l := by
  induction l with
  | nil => rfl
  | cons a t ih =>
    cases t with
    | nil => simp [collapseWs, h a (List.mem_cons_self _ _)]
    | cons d rest =>
      rw [collapseWs, if_neg (by simp [h a (List.mem_cons_self _ _)])]
      rw [ih (fun c hc => h c (List.mem_cons_of_mem a hc))]

/-- `lowerKeep` is the identity on its own outputs. -/
theorem lowerKeep_fix {t : Str}
    (h : ∀ d ∈ t, keepChar d = true ∧ d.toLower = d) : lowerKeep t = t := by
  unfold lowerKeep
  rw [List.map_congr_left (fun a ha => (h a ha).2), List.map_id',
    List.filter_eq_self.mpr (fun a ha => (h a ha).1)]

/-- `lowerKeep` only depends on the non-whitespace characters. -/
theorem lowerKeep_wsErase (u : Str) : lowerKeep (wsErase u) = lowerKeep u := by
  unfold lowerKeep wsErase
  rw [List.filter_map, List.filter_map, List.filter_filter]
  have : ∀ a ∈ u, ((keepChar ∘ Char.toLower) a && !(isPySpace a)) = (keepChar ∘ Char.toLower) a := by
    intro a _
    cases hq : (keepChar ∘ Char.toLower) a with
    | false => simp
    | true => simp [keep_toLower_not_space hq]
  rw [List.filter_congr this]

/-- Dropping leading whitespace does not change the whitespace-erased list. -/
theorem wsErase_dropWhile (u : Str) :
    wsErase (u.dropWhile isPySpace) = wsErase u := by
  induction u with
  | nil => rfl
  | cons a t ih =>
    cases ha : isPySpace a with
    | true => simpa [List.dropWhile, ha, wsErase] using ih
    | false => simp [List.dropWhile, ha]

/-- Stripping surrounding whitespace does not change the whitespace-erased
list. -/
theorem wsErase_pyStrip (u : Str) : wsErase (pyStrip u) = wsErase u := by
  unfold pyStrip wsErase
  rw [List.filter_reverse]
  have h1 := wsErase_dropWhile (u.dropWhile isPySpace).reverse
  unfold wsErase at h1
  rw [h1, List.filter_reverse, List.reverse_reverse]
  have h2 := wsErase_dropWhile u
  unfold wsErase at h2
  exact h2

/-- Collapsing whitespace runs does not change the whitespace-erased list. -/
theorem wsErase_collapseWs (u : Str) : wsErase (collapseWs u) = wsErase u := by
  induction u with
  | nil => rfl
  | cons c rest ih =>
    cases rest with
    | nil =>
      cases hc : isPySpace c with
      | true => simp [collapseWs, wsErase, hc, show isPySpace ' ' = true from rfl]
      | false => simp [collapseWs, wsErase, hc]
    | cons d rest' =>
      have hsp : isPySpace ' ' = true := rfl
      cases hc : isPySpace c <;> cases hd : isPySpace d <;>
        simp only [collapseWs, hc, hd, if_pos, if_neg, wsErase, List.filter_cons,
          Bool.false_eq_true, Bool.not_false, Bool.not_true, if_true, if_false,
          hsp, ite_true, ite_false] <;>
        simp_all [wsErase, collapseWs, hc, hd, hsp]

/-- On a nonempty input, `normalize_role_name` equals lowercase-plus-filter of
the EC-stripped, whitespace-stripped input: the whitespace-shuffling middle
steps (second strip, run collapsing) are invisible to the final filter. -/
theorem normalize_role_name_some_eq (s : Str) (h : s ≠ []) :
    normalize_role_name (some s) = lowerKeep (ecStrip (pyStrip s)) := by
  simp only [normalize_role_name]
  rw [if_neg h]
  show lowerKeep (collapseWs (pyStrip (ecStrip (pyStrip s)))) = lowerKeep (ecStrip (pyStrip s))
  rw [← lowerKeep_wsErase (collapseWs (pyStrip (ecStrip (pyStrip s)))),
    wsErase_collapseWs, wsErase_pyStrip, lowerKeep_wsErase]

/-- Claim C5: both name normalizers are idempotent: normalizing an already
normalized string returns it unchanged (`normalize_role` from
`template_enhancer.py` and `normalize_role_name` from
`build_working_ontology.py`). -/
theorem normalize_idempotent (s : Str) :
    normalize_role (normalize_role s) = normalize_role s ∧
    normalize_role_name (some (normalize_role_name (some s))) =
      normalize_role_name (some s) := by
  constructor
  · have ht : ∀ d ∈ normalize_role s, keepChar d = true ∧ d.toLower = d :=
      fun d hd => mem_lowerKeep (u := pyStrip s) hd
    rw [normalize_role_eq (normalize_role s),
      pyStrip_eq_self (fun c hc => keep_not_space (ht c hc).1), lowerKeep_fix ht]
  · by_cases h0 : normalize_role_name (some s) = []
    · rw [h0]
      rfl
    · have hs : s ≠ [] := by
        intro hnil
        exact h0 (by rw [hnil]; rfl)
      have ht : ∀ d ∈ normalize_role_name (some s), keepChar d = true ∧ d.toLower = d := by
        intro d hd
        rw [normalize_role_name_some_eq s hs] at hd
        exact mem_lowerKeep hd
      rw [normalize_role_name_some_eq (normalize_role_name (some s)) h0,
        pyStrip_eq_self (fun c hc => keep_not_space (ht c hc).1),
        ecStrip_eq_self (fun c hc => keep_ne_lparen (ht c hc).1),
        lowerKeep_fix ht]

/-- Characters of a stripped list come from the original list. -/
theorem mem_pyStrip {c : Char} {u : Str} (h : c ∈ pyStrip u) : c ∈ u := by
  unfold pyStrip at h
  rw [List.mem_reverse] at h
  have h2 := List.dropWhile_subset (p := isPySpace) h
  rw [List.mem_reverse] at h2
  exact List.dropWhile_subset _ h2

/-- In `ds ++ [')']` with no `)` inside `ds`, the first `)` sits at index
`ds.length`. -/
theorem findIdx_rparen (ds : Str) (hds : ∀ c ∈ ds, c ≠ ')') :
    (ds ++ [')']).findIdx? (fun c => c == ')') = some ds.length := by
  induction ds with
  | nil => simp
  | cons a t ih =>
    have ha : (a == ')') = false := by
      simp [hds a (List.mem_cons_self _ _)]
    rw [List.cons_append, List.findIdx?_cons,
      if_neg (by rw [ha]; exact Bool.false_ne_true),
      List.findIdx?_succ, ih (fun c hc => hds c (List.mem_cons_of_mem a hc))]
    simp

/-- A full `(EC ...)` group is deleted by `ecStrip`. -/
theorem ecStrip_group (ds : Str) (hds : ∀ c ∈ ds, c ≠ ')') :
    ecStrip ('(' :: 'E' :: 'C' :: (ds ++ [')'])) = [] := by
  rw [ecStrip_cons, if_pos (by exact ⟨rfl, by simp⟩)]
  simp only [List.drop_succ_cons, List.drop_zero]
  rw [findIdx_rparen ds hds]
  show ecStrip ((ds ++ [')']).drop (ds.length + 1)) = []
  rw [show ds.length + 1 = (ds ++ [')']).length by simp, List.drop_length]
  rfl

/-- `ecStrip` deletes a trailing `(EC ...)` group and keeps an
opening-parenthesis-free head intact. -/
theorem ecStrip_append_group (t ds : Str) (ht : ∀ c ∈ t, c ≠ '(')
    (hds : ∀ c ∈ ds, c ≠ ')') :
    ecStrip (t ++ '(' :: 'E' :: 'C' :: (ds ++ [')'])) = t := by
  induction t with
  | nil => simpa using ecStrip_group ds hds
  | cons a t' ih =>
    rw [List.cons_append, ecStrip_cons, if_neg]
    · rw [ih (fun c hc => ht c (List.mem_cons_of_mem a hc))]
    · rintro ⟨rfl, -⟩
      exact ht '(' (List.mem_cons_self _ _) rfl

/-- `dropWhile` distributes over an append whose right part starts with a
non-matching character. -/
theorem dropWhile_append_left {p : Char → Bool} (t m : Str) (hm : ∀ hne : m ≠ [], p (m.head hne) = false) :
    (t ++ m).dropWhile p = t.dropWhile p ++ m := by
  induction t with
  | nil =>
    simp only [List.nil_append, List.dropWhile_nil]
    cases m with
    | nil => rfl
    | cons b bs =>
      have hb : p b = false := hm (by simp)
      simp [List.dropWhile, hb]
  | cons a t' ih =>
    cases ha : p a with
    | true => simpa [List.dropWhile, ha] using ih
    | false => simp [List.dropWhile, ha]

/-- Stripping around a trailing `(EC ...)` group only strips on the left:
the group begins with `(` and ends with `)`, neither of which is
whitespace. -/
theorem pyStrip_append_group (t ds : Str) :
    pyStrip (t ++ '(' :: 'E' :: 'C' :: (ds ++ [')'])) =
      t.dropWhile isPySpace ++ '(' :: 'E' :: 'C' :: (ds ++ [')']) := by
  unfold pyStrip
  rw [dropWhile_append_left t ('(' :: 'E' :: 'C' :: (ds ++ [')'])) (fun _ => rfl)]
  rw [show (t.dropWhile isPySpace ++ '(' :: 'E' :: 'C' :: (ds ++ [')'])).reverse
      = ')' :: (ds.reverse ++ 'C' :: 'E' :: '(' :: (t.dropWhile isPySpace).reverse) by simp]
  rw [List.dropWhile_cons, if_neg (by decide)]
  rw [show (')' :: (ds.reverse ++ 'C' :: 'E' :: '(' :: (t.dropWhile isPySpace).reverse)).reverse
      = t.dropWhile isPySpace ++ '(' :: 'E' :: 'C' :: (ds ++ [')']) by simp]

/-- Claim C6: `normalize_role_name` strips a trailing `(EC ...)` annotation:
for any label `t` without an opening parenthesis followed by an `(EC ...)`
group whose interior has no closing parenthesis, the normalized key equals
that of `t` alone. -/
theorem normalize_strips_ec_group (t ds : Str) (ht : ∀ c ∈ t, c ≠ '(')
    (hds : ∀ c ∈ ds, c ≠ ')') :
    normalize_role_name (some (t ++ '(' :: 'E' :: 'C' :: (ds ++ [')']))) =
      normalize_role_name (some t) := by
  have hfull : t ++ '(' :: 'E' :: 'C' :: (ds ++ [')']) ≠ [] := by simp
  rw [normalize_role_name_some_eq _ hfull, pyStrip_append_group t ds,
    ecStrip_append_group (t.dropWhile isPySpace) ds
      (fun c hc => ht c (List.dropWhile_subset _ hc)) hds]
  by_cases h0 : t = []
  · subst h0
    simp [normalize_role_name, lowerKeep]
  · rw [normalize_role_name_some_eq t h0,
      ecStrip_eq_self (fun c hc => ht c (mem_pyStrip hc)),
      ← lowerKeep_wsErase (t.dropWhile isPySpace), wsErase_dropWhile,
      ← wsErase_pyStrip t, lowerKeep_wsErase]

/-- Witness for claim C6 at the spec's concrete instance. -/
theorem normalize_strips_ec_group_witness :
    normalize_role_name (some (strL ("Foo (EC 1.1.1.1)"))) =
      normalize_role_name (some (strL ("Foo"))) := by
  have h := normalize_strips_ec_group (strL ("Foo ")) (strL (" 1.1.1.1"))
    (by decide) (by decide)
  calc normalize_role_name (some (strL ("Foo (EC 1.1.1.1)")))
      = normalize_role_name
          (some (strL ("Foo ") ++ '(' :: 'E' :: 'C' :: (strL (" 1.1.1.1") ++ [')']))) := by
        decide
    _ = normalize_role_name (some (strL ("Foo "))) := h
    _ = normalize_role_name (some (strL ("Foo"))) := by decide

/-- Claim C1: for a processed role (referenced by a complex, nonempty name),
a non-null answer from the external mapper `map_annotation` becomes the
role's `seed_id` unconditionally - the normalization stage is never
consulted, whatever the normalized-form index or collision table contain,
and no normalization match or collision record is produced. -/
theorem rast_match_wins (m : Mapper) (role : ERole) (sid : Str)
    (hin : role.id ∈ m.roles_in_complexes)
    (hname : role.name ≠ [])
    (hrast : m.rast_map role.name = some sid) :
    ((map_role m role).2.seed_id = some sid) ∧
    ((map_role m role).1.normalization_matches = m.normalization_matches) ∧
    ((map_role m role).1.potential_collisions = m.potential_collisions) ∧
    ((map_role m role).1.unmapped_roles = m.unmapped_roles) := by
  unfold map_role finishMapped
  simp [hin, hname, hrast]

/-- Sample seed.json role node (label `Alpha`). -/
def wNode1 : SeedNode :=
  ⟨strL ("https://pubseed.theseed.org/RoleEditor.cgi?page=ShowRole&Role=1"), strL ("Alpha")⟩

/-- Second sample node whose label normalizes identically (`alpha `). -/
def wNode2 : SeedNode :=
  ⟨strL ("https://pubseed.theseed.org/RoleEditor.cgi?page=ShowRole&Role=2"), strL ("alpha ")⟩

/-- Sample template role processed by the witnesses. -/
def wRole : ERole :=
  ⟨strL ("ftr9"), strL ("Alpha"), strL ("ModelSEED"), none, none, none, none⟩

/-- Sample mapper whose external mapper answers `seed.role:77` and whose
normalized-form index was built from the two colliding sample nodes. -/
def wMapperRast : Mapper :=
  { rast_map := fun _ => some (strL ("seed.role:77")),
    seed_role_by_normalized := (build_normalization_lookup [wNode1, wNode2]).1,
    normalization_collisions := (build_normalization_lookup [wNode1, wNode2]).2,
    roles_in_complexes := [strL ("ftr9")],
    potential_collisions := [], normalization_matches := [], unmapped_roles := [],
    role_to_seed := [], stats := ⟨0, 0, 0, 0, 0, 0, 0, 0, 0, 0, 0⟩ }

/-- The same mapper with an external mapper that never answers. -/
def wMapperNone : Mapper := { wMapperRast with rast_map := fun _ => none }

/-- Witness for claim C1: even though the index maps `wRole`'s normalized name
(with a collision), the external mapper's answer wins. -/
theorem rast_match_wins_witness :
    ((map_role wMapperRast wRole).2.seed_id = some (strL ("seed.role:77"))) ∧
    ((map_role wMapperRast wRole).1.potential_collisions = []) :=
  ⟨(rast_match_wins wMapperRast wRole (strL ("seed.role:77"))
      (by decide) (by decide) rfl).1,
   (rast_match_wins wMapperRast wRole (strL ("seed.role:77"))
      (by decide) (by decide) rfl).2.2.1⟩

/-- Claim C2: with a registry of two role nodes whose labels share a
normalized form, a processed role that the external mapper cannot map and
whose name normalizes to exactly that shared form is left unmapped (its
`seed_id` stays `none`, it joins `unmapped_roles`), exactly one collision
record is appended, and that record references both colliding entries; no
normalization match is recorded. -/
theorem collision_leaves_unmapped (n1 n2 : SeedNode) (i1 i2 : RoleInfo)
    (m : Mapper) (role : ERole)
    (hp1 : parseSeedRole n1 = some i1)
    (hp2 : parseSeedRole n2 = some i2)
    (hnorm : i2.normalized = i1.normalized)
    (hdiff : i1.seed_id ≠ i2.seed_id)
    (hlkp : m.seed_role_by_normalized = (build_normalization_lookup [n1, n2]).1)
    (hcol : m.normalization_collisions = (build_normalization_lookup [n1, n2]).2)
    (hin : role.id ∈ m.roles_in_complexes)
    (hname : role.name ≠ [])
    (hrast : m.rast_map role.name = none)
    (hkey : normalize_role role.name = i1.normalized)
    (hseed : role.seed_id = none) :
    ((map_role m role).2.seed_id = none) ∧
    ((map_role m role).1.potential_collisions = m.potential_collisions ++
      [{ template_role := role.name, normalized := normalize_role role.name,
         colliding_seed_roles := [i1.original_name, i2.original_name] }]) ∧
    ((map_role m role).1.unmapped_roles = m.unmapped_roles ++
      [{ id := role.id, name := role.name, normalized := normalize_role role.name,
         source := role.source }]) ∧
    ((map_role m role).1.normalization_matches = m.normalization_matches) := by
  have hb : build_normalization_lookup [n1, n2] =
      ([(i1.normalized, i1)], [(i2.normalized, [i1, i2])]) := by
    unfold build_normalization_lookup addColl
    simp [hp1, hp2, List.lookup, hnorm]
  rw [hb] at hlkp hcol
  unfold map_role finishUnmapped
  simp [hin, hname, hrast, hkey, hlkp, hcol, List.lookup, hnorm, hseed]

/-- Witness for claim C2 at the two sample nodes and the sample role. -/
theorem collision_leaves_unmapped_witness :
    ((map_role wMapperNone wRole).2.seed_id = none) ∧
    ((map_role wMapperNone wRole).1.potential_collisions =
      [{ template_role := strL ("Alpha"), normalized := strL ("alpha"),
         colliding_seed_roles := [strL ("Alpha"), strL ("alpha ")] }]) := by
  have h := collision_leaves_unmapped wNode1 wNode2
    ⟨strL ("seed.role:1"), wNode1.id, strL ("Alpha"), strL ("alpha")⟩
    ⟨strL ("seed.role:2"), wNode2.id, strL ("alpha "), strL ("alpha")⟩
    wMapperNone wRole (by decide) (by decide) (by decide) (by decide)
    (by decide) (by decide) (by decide) (by decide) rfl (by decide) rfl
  exact ⟨h.1, by rw [h.2.1]; decide⟩

/-- Claim C9: a role not referenced by any complex passes through untouched:
the returned record is the input record, and none of the mapper's result
collections (unmapped, collisions, matches, role-to-seed, index) changes. -/
theorem unreferenced_role_untouched (m : Mapper) (role : ERole)
    (hout : role.id ∉ m.roles_in_complexes) :
    ((map_role m role).2 = role) ∧
    ((map_role m role).1.unmapped_roles = m.unmapped_roles) ∧
    ((map_role m role).1.potential_collisions = m.potential_collisions) ∧
    ((map_role m role).1.normalization_matches = m.normalization_matches) ∧
    ((map_role m role).1.role_to_seed = m.role_to_seed) ∧
    ((map_role m role).1.seed_role_by_normalized = m.seed_role_by_normalized) := by
  unfold map_role
  simp [hout]

/-- Role with an id referenced by no complex. -/
def wRoleOutside : ERole :=
  ⟨strL ("ftr1"), strL ("Beta"), strL ("KEGG"), none, none, none, none⟩

/-- Witness for claim C9. -/
theorem unreferenced_role_untouched_witness :
    ((map_role wMapperNone wRoleOutside).2 = wRoleOutside) ∧
    ((map_role wMapperNone wRoleOutside).1.unmapped_roles = []) :=
  ⟨(unreferenced_role_untouched wMapperNone wRoleOutside (by decide)).1,
   (unreferenced_role_untouched wMapperNone wRoleOutside (by decide)).2.1⟩

/-- Claim C10: the normalizer accepts `None` and the empty string, producing
the empty key, and `map_role` never looks an empty name up in any index:
a processed role with an empty name is returned unchanged with every result
collection untouched. -/
theorem empty_name_unmappable :
    normalize_role_name none = [] ∧
    normalize_role_name (some []) = [] ∧
    ∀ (m : Mapper) (role : ERole), role.name = [] →
      ((map_role m role).2 = role) ∧
      ((map_role m role).1.unmapped_roles = m.unmapped_roles) ∧
      ((map_role m role).1.potential_collisions = m.potential_collisions) ∧
      ((map_role m role).1.normalization_matches = m.normalization_matches) := by
  refine ⟨rfl, rfl, ?_⟩
  intro m role hname
  unfold map_role
  by_cases hin : role.id ∈ m.roles_in_complexes
  · simp [hin, hname]
  · simp [hin, hname]

/-- Role carrying an empty name. -/
def wRoleNoName : ERole :=
  ⟨strL ("ftr9"), [], strL ("ModelSEED"), none, none, none, none⟩

/-- Witness for claim C10 at a referenced role with an empty name. -/
theorem empty_name_unmappable_witness :
    ((map_role wMapperNone wRoleNoName).2 = wRoleNoName) ∧
    ((map_role wMapperNone wRoleNoName).1.unmapped_roles = []) :=
  ⟨(empty_name_unmappable.2.2 wMapperNone wRoleNoName rfl).1,
   (empty_name_unmappable.2.2 wMapperNone wRoleNoName rfl).2.1⟩

/-- Claim C3: for a reaction referencing a complex with a resolved triggering
member role and a resolved non-triggering member role, the builder emits both
`has_role` edges, the `has_complex` edge, and `enables_reaction` only for the
triggering role - no `enables_reaction` edge for the non-triggering role. -/
theorem triggering_rule (ρ1 ρ2 : BRole) (tr1 tr2 cref cpxId rxnId : Str)
    (g2 : Option Nat) (rty : Option Str) (tpl : BTemplate)
    (htpl : tpl = ⟨[ρ1, ρ2], [⟨cpxId, [⟨tr1, some 1⟩, ⟨tr2, g2⟩]⟩], [⟨rxnId, rty, [cref]⟩]⟩)
    (hcref : lastSegOn '/' cref = cpxId)
    (htr1 : tr1 ≠ []) (htr1b : lastSegOn '/' tr1 = ρ1.id)
    (htr2 : tr2 ≠ []) (htr2b : lastSegOn '/' tr2 = ρ2.id)
    (hids : ρ1.id ≠ ρ2.id)
    (hres1 : ∃ s, ρ1.seed_id = some s ∧ s ≠ [])
    (hres2 : ∃ s, ρ2.seed_id = some s ∧ s ≠ [])
    (hg2 : g2.getD 0 ≠ 1)
    (huri : roleUriOf ρ2 ≠ roleUriOf ρ1) :
    hasComplexRels tpl = [⟨reactionUri (rxnBaseId rxnId), predHasComplex, complexUri cpxId⟩] ∧
    hasRoleRels tpl =
      [⟨complexUri cpxId, predHasRole, roleUriOf ρ1⟩,
       ⟨complexUri cpxId, predHasRole, roleUriOf ρ2⟩] ∧
    enablesRels tpl = [⟨roleUriOf ρ1, predEnables, reactionUri (rxnBaseId rxnId)⟩] ∧
    ⟨roleUriOf ρ2, predEnables, reactionUri (rxnBaseId rxnId)⟩ ∉ enablesRels tpl := by
  subst htpl
  have hne : (ρ1.id == ρ2.id) = false := by
    simp [hids]
  have h1 : hasComplexRels ⟨[ρ1, ρ2], [⟨cpxId, [⟨tr1, some 1⟩, ⟨tr2, g2⟩]⟩],
      [⟨rxnId, rty, [cref]⟩]⟩ =
      [⟨reactionUri (rxnBaseId rxnId), predHasComplex, complexUri cpxId⟩] := by
    simp [hasComplexRels, findComplex, hcref, List.find?]
  have h2 : hasRoleRels ⟨[ρ1, ρ2], [⟨cpxId, [⟨tr1, some 1⟩, ⟨tr2, g2⟩]⟩],
      [⟨rxnId, rty, [cref]⟩]⟩ =
      [⟨complexUri cpxId, predHasRole, roleUriOf ρ1⟩,
       ⟨complexUri cpxId, predHasRole, roleUriOf ρ2⟩] := by
    simp [hasRoleRels, findComplex, findRole, hcref, htr1, htr1b, htr2, htr2b,
      hne, List.find?]
  have h3 : enablesRels ⟨[ρ1, ρ2], [⟨cpxId, [⟨tr1, some 1⟩, ⟨tr2, g2⟩]⟩],
      [⟨rxnId, rty, [cref]⟩]⟩ =
      [⟨roleUriOf ρ1, predEnables, reactionUri (rxnBaseId rxnId)⟩] := by
    simp [enablesRels, findComplex, findRole, hcref, htr1, htr1b, htr2, htr2b,
      hne, hg2, List.find?]
  refine ⟨h1, h2, h3, ?_⟩
  rw [h3]
  simp [RelEdge.mk.injEq, huri]

/-- Sample template for the C3 witness: reaction `rxn1_c` references complex
`cpx1`, whose triggering member `ftr1` and non-triggering member `ftr2` are
both resolved. -/
def wTplC3 : BTemplate :=
  ⟨[⟨strL ("ftr1"), some (strL ("seed.role:11"))⟩,
    ⟨strL ("ftr2"), some (strL ("seed.role:22"))⟩],
   [⟨strL ("cpx1"), [⟨strL ("~/roles/id/ftr1"), some 1⟩, ⟨strL ("~/roles/id/ftr2"), some 0⟩]⟩],
   [⟨strL ("rxn1_c"), none, [strL ("~/complexes/id/cpx1")]⟩]⟩

/-- Witness for claim C3 on the sample template. -/
theorem triggering_rule_witness :
    enablesRels wTplC3 =
      [⟨roleUriOf ⟨strL ("ftr1"), some (strL ("seed.role:11"))⟩, predEnables,
        reactionUri (rxnBaseId (strL ("rxn1_c")))⟩] ∧
    ⟨roleUriOf ⟨strL ("ftr2"), some (strL ("seed.role:22"))⟩, predEnables,
      reactionUri (rxnBaseId (strL ("rxn1_c")))⟩ ∉ enablesRels wTplC3 := by
  have h := triggering_rule
    ⟨strL ("ftr1"), some (strL ("seed.role:11"))⟩
    ⟨strL ("ftr2"), some (strL ("seed.role:22"))⟩
    (strL ("~/roles/id/ftr1")) (strL ("~/roles/id/ftr2"))
    (strL ("~/complexes/id/cpx1")) (strL ("cpx1")) (strL ("rxn1_c"))
    (some 0) none wTplC3 rfl (by decide) (by decide) (by decide) (by decide)
    (by decide) (by decide) ⟨strL ("seed.role:11"), rfl, by decide⟩
    ⟨strL ("seed.role:22"), rfl, by decide⟩ (by decide) (by decide)
  exact ⟨h.2.2.1, h.2.2.2⟩

/-- Template whose only complex has a single, unresolved member role. -/
def c4Tpl : BTemplate :=
  ⟨[⟨strL ("ftr1"), none⟩],
   [⟨strL ("cpx1"), [⟨strL ("~/roles/id/ftr1"), some 0⟩]⟩],
   [⟨strL ("rxn1"), none, [strL ("~/complexes/id/cpx1")]⟩]⟩

/-- Counterexample to claim C4 as stated: every role of `c4Tpl` failed
resolution, yet the builder emits a `has_role` edge for the complex - a
placeholder edge with the template-role URI - instead of zero `has_role`
edges. -/
theorem unresolved_placeholder_counterexample :
    (∀ r ∈ c4Tpl.roles, r.seed_id = none) ∧
    hasRoleRels c4Tpl =
      [⟨complexUri (strL ("cpx1")), predHasRole, templateRoleUri (strL ("ftr1"))⟩] := by
  decide

/-- Claim C4 as amended: for a complex whose sole member role failed
resolution, the builder still emits the `has_complex` edge, and also emits a
`has_role` edge using the placeholder template-role URI (plus an
`enables_reaction` placeholder edge when the member is triggering): `has_role`
edges are emitted for every member role found in the template, resolved or
not. -/
theorem unresolved_placeholder_edges (ρ : BRole) (tr cref cpxId rxnId : Str)
    (g : Option Nat) (rty : Option Str) (tpl : BTemplate)
    (htpl : tpl = ⟨[ρ], [⟨cpxId, [⟨tr, g⟩]⟩], [⟨rxnId, rty, [cref]⟩]⟩)
    (hcref : lastSegOn '/' cref = cpxId)
    (htr : tr ≠ []) (htrb : lastSegOn '/' tr = ρ.id)
    (hunres : ρ.seed_id = none) :
    hasComplexRels tpl = [⟨reactionUri (rxnBaseId rxnId), predHasComplex, complexUri cpxId⟩] ∧
    hasRoleRels tpl = [⟨complexUri cpxId, predHasRole, templateRoleUri ρ.id⟩] ∧
    enablesRels tpl =
      (if g.getD 0 == 1 then
        [⟨templateRoleUri ρ.id, predEnables, reactionUri (rxnBaseId rxnId)⟩]
      else []) := by
  subst htpl
  refine ⟨?_, ?_, ?_⟩
  · simp [hasComplexRels, findComplex, hcref, List.find?]
  · simp [hasRoleRels, findComplex, findRole, hcref, htr, htrb, List.find?,
      roleUriOf, hunres]
  · by_cases hg : g.getD 0 = 1
    · rw [if_pos (by simp [hg])]
      simp [enablesRels, findComplex, findRole, hcref, htr, htrb, List.find?,
        roleUriOf, hunres, hg]
    · rw [if_neg (by simp [hg])]
      simp [enablesRels, findComplex, findRole, hcref, htr, htrb, List.find?,
        roleUriOf, hunres, hg]

/-- Witness for the amended claim C4 on `c4Tpl`. -/
theorem unresolved_placeholder_edges_witness :
    hasComplexRels c4Tpl =
      [⟨reactionUri (rxnBaseId (strL ("rxn1"))), predHasComplex, complexUri (strL ("cpx1"))⟩] ∧
    enablesRels c4Tpl = [] := by
  have h := unresolved_placeholder_edges ⟨strL ("ftr1"), none⟩
    (strL ("~/roles/id/ftr1")) (strL ("~/complexes/id/cpx1")) (strL ("cpx1"))
    (strL ("rxn1")) (some 0) none c4Tpl rfl (by decide) (by decide) (by decide) rfl
  refine ⟨h.1, ?_⟩
  rw [h.2.2]
  decide

/-- Claim C7: the cross-reference parsing scenario from the spec: a whole
CHEBI value under `chebi` and the semicolon-delimited kegg value split, with
the trailing empty segment dropped. -/
theorem xref_parse_scenario :
    parse_xrefs [⟨strL ("CHEBI:15422")⟩, ⟨strL ("kegg.compound:C00002;C00008;")⟩] =
      ⟨[strL ("CHEBI:15422")], [strL ("C00002"), strL ("C00008")], [], []⟩ := by
  decide

/-- The head of a `dropWhile` result fails the predicate. -/
theorem dropWhile_head_false {p : Char → Bool} :
    ∀ {l : Str} {b : Char} {bs : Str}, l.dropWhile p = b :: bs → p b = false := by
  intro l
  induction l with
  | nil =>
    intro b bs h
    simp at h
  | cons a t ih =>
    intro b bs h
    by_cases ha : p a = true
    · rw [List.dropWhile_cons, if_pos ha] at h
      exact ih h
    · rw [List.dropWhile_cons, if_neg ha] at h
      injection h with h1 h2
      subst h1
      simpa using ha

/-- A nonempty `pyStrip` output contains a non-whitespace character. -/
theorem pyStrip_has_nonspace {u : Str} (h : pyStrip u ≠ []) :
    ∃ c ∈ pyStrip u, isPySpace c = false := by
  cases hBc : (u.dropWhile isPySpace).reverse.dropWhile isPySpace with
  | nil =>
    exfalso
    apply h
    unfold pyStrip
    rw [hBc]
    rfl
  | cons b bs =>
    refine ⟨b, ?_, dropWhile_head_false hBc⟩
    unfold pyStrip
    rw [hBc]
    simp

/-- Values produced by `splitTrimNonempty` are nonempty and not
whitespace-only. -/
theorem mem_splitTrimNonempty {v u : Str} (h : u ∈ splitTrimNonempty v) :
    u ≠ [] ∧ ∃ c ∈ u, isPySpace c = false := by
  unfold splitTrimNonempty at h
  rcases List.mem_filterMap.mp h with ⟨kid, -, hf⟩
  by_cases hk : pyStrip kid = []
  · simp [hk] at hf
  · simp only [hk, if_neg, ite_false, Option.some.injEq] at hf
    rw [← hf]
    exact ⟨hk, pyStrip_has_nonspace hk⟩

/-- CHEBI-prefixed values are nonempty and not whitespace-only. -/
theorem chebi_val_nonspace {v : Str}
    (h : (strL ("CHEBI:")).isPrefixOf v = true) :
    v ≠ [] ∧ ∃ c ∈ v, isPySpace c = false := by
  rcases List.isPrefixOf_iff_prefix.mp h with ⟨t, ht⟩
  have hm : 'C' ∈ v := by
    rw [← ht]
    exact List.mem_append_left t (by decide)
  exact ⟨List.ne_nil_of_mem hm, ⟨'C', hm, by decide⟩⟩

/-- The fold of `parseXrefStep` preserves well-formedness of the `chebi`,
`kegg` and `metacyc` lists. -/
theorem parse_xrefs_inv :
    ∀ (xs : List Xref) (acc : XrefMap),
      (∀ v ∈ acc.chebi, v ≠ [] ∧ ∃ c ∈ v, isPySpace c = false) →
      (∀ v ∈ acc.kegg, v ≠ [] ∧ ∃ c ∈ v, isPySpace c = false) →
      (∀ v ∈ acc.metacyc, v ≠ [] ∧ ∃ c ∈ v, isPySpace c = false) →
      (∀ v ∈ (List.foldl parseXrefStep acc xs).chebi, v ≠ [] ∧ ∃ c ∈ v, isPySpace c = false) ∧
      (∀ v ∈ (List.foldl parseXrefStep acc xs).kegg, v ≠ [] ∧ ∃ c ∈ v, isPySpace c = false) ∧
      (∀ v ∈ (List.foldl parseXrefStep acc xs).metacyc, v ≠ [] ∧ ∃ c ∈ v, isPySpace c = false) := by
  intro xs
  induction xs with
  | nil =>
    intro acc hc hk hm
    exact ⟨hc, hk, hm⟩
  | cons x t ih =>
    intro acc hc hk hm
    rw [List.foldl_cons]
    have hstep :
        (∀ v ∈ (parseXrefStep acc x).chebi, v ≠ [] ∧ ∃ c ∈ v, isPySpace c = false) ∧
        (∀ v ∈ (parseXrefStep acc x).kegg, v ≠ [] ∧ ∃ c ∈ v, isPySpace c = false) ∧
        (∀ v ∈ (parseXrefStep acc x).metacyc, v ≠ [] ∧ ∃ c ∈ v, isPySpace c = false) := by
      unfold parseXrefStep
      by_cases h1 : (strL ("CHEBI:")).isPrefixOf x.val = true
      · simp only [h1, if_true, ite_true]
        refine ⟨?_, hk, hm⟩
        intro v hv
        rcases List.mem_append.mp hv with hv1 | hv2
        · exact hc v hv1
        · rw [List.mem_singleton.mp hv2]
          exact chebi_val_nonspace h1
      · simp only [h1, if_false, ite_false]
        by_cases h2 : (strL ("kegg.compound:")).isPrefixOf x.val = true
        · simp only [h2, if_true, ite_true]
          refine ⟨hc, ?_, hm⟩
          intro v hv
          rcases List.mem_append.mp hv with hv1 | hv2
          · exact hk v hv1
          · exact mem_splitTrimNonempty hv2
        · simp only [h2, if_false, ite_false]
          by_cases h3 : (strL ("metacyc.compound:")).isPrefixOf x.val = true
          · simp only [h3, if_true, ite_true]
            refine ⟨hc, hk, ?_⟩
            intro v hv
            rcases List.mem_append.mp hv with hv1 | hv2
            · exact hm v hv1
            · exact mem_splitTrimNonempty hv2
          · simp only [h3, if_false, ite_false]
            by_cases h4 : (strL ("seed.reaction:")).isPrefixOf x.val = true
            · simp only [h4, if_true, ite_true]
              exact ⟨hc, hk, hm⟩
            · simp only [h4, if_false, ite_false]
              exact ⟨hc, hk, hm⟩
    exact ih (parseXrefStep acc x) hstep.1 hstep.2.1 hstep.2.2

/-- Counterexample to claim C8 as stated: a raw value that is exactly the
`seed.reaction:` prefix puts the empty string into the extractor's
`seed_reaction` list, and a bare `EC:` value puts the empty string into
`map_reaction`'s `ec_numbers` list. -/
theorem xref_empty_value_counterexample :
    (parse_xrefs [⟨strL ("seed.reaction:")⟩]).seed_reaction = [[]] ∧
    (reaction_xref_lists [⟨strL ("EC:")⟩]).ec_numbers = [[]] := by
  decide

/-- Claim C8 as amended: the `chebi`, `kegg` and `metacyc` lists produced by
the Cross-Reference Extractor contain only non-empty, non-whitespace-only
strings; the `seed.reaction:` branch (and the `EC:`/`KEGG.REACTION:`/
`MetaCyc:` branches of `map_reaction`) append the bare prefix-stripped value,
which is empty when the raw string is the prefix alone. -/
theorem xref_lists_wellformed (xs : List Xref) :
    (∀ v ∈ (parse_xrefs xs).chebi, v ≠ [] ∧ ∃ c ∈ v, isPySpace c = false) ∧
    (∀ v ∈ (parse_xrefs xs).kegg, v ≠ [] ∧ ∃ c ∈ v, isPySpace c = false) ∧
    (∀ v ∈ (parse_xrefs xs).metacyc, v ≠ [] ∧ ∃ c ∈ v, isPySpace c = false) :=
  parse_xrefs_inv xs ⟨[], [], [], []⟩
    (by intro v hv; simp at hv) (by intro v hv; simp at hv)
    (by intro v hv; simp at hv)

/-- Witness for the amended claim C8 at a concrete kegg value. -/
theorem xref_lists_wellformed_witness :
    strL ("C00002") ≠ [] ∧ ∃ c ∈ strL ("C00002"), isPySpace c = false :=
  (xref_lists_wellformed [⟨strL ("kegg.compound:C00002")⟩]).2.1
    (strL ("C00002")) (by decide)
